import Mathlib

namespace SeedboxBot

/-!
Shallow embedding of the transfer-orchestration core of the
`tg-bot-seedbox-debrid-support` repository, together with theorems checking
the natural-language specification against it.

Each definition is translated from one place in the Python source
(`src/bot/...`); the file is organised module by module:

* `bot/storage_queue.py` — `StorageAwareQueue` (admission control)
* `bot/utils/splitter.py` — `_split_binary` (chunking)
* `bot/state.py` — `JsonFileState` (processed markers, intents, upload ledger)
* `bot/monitor.py` — `Monitor.check_realdebrid` / `check_seedbox`
* `bot/rss.py` — `RSSManager._poll_feed` / `_add_rss_torrent` /
  `_select_service_by_cache`
* `bot/downloader.py` — `Downloader._download_file` retry loop and the
  upload phase of `Downloader._run_task`
* `bot/main_bot.py` — intent writing at acquisition time

External effects (disk probes, network calls, hashing) are passed in as
explicit parameters, so that every definition is a pure, executable function
of its inputs.
-/

/-! ## `bot/storage_queue.py` — `StorageAwareQueue`

`has_space` reads `shutil.disk_usage(self.download_dir).free`; the probe can
raise, in which case the code assumes space is available (fail-open).  We
model the probe outcome as `Option Nat`: `some free` is a successful
measurement, `none` a measurement failure. -/

/-- Outcome of the `shutil.disk_usage` probe: `free = some f` means the call
returned `f` free bytes, `free = none` means it raised. -/
structure DiskEnv where
  free : Option Nat
deriving DecidableEq, Repr

/-- A queued item, from the dict built in `Downloader._process_item_logic`
(`{'url','name','dest','chat_id','size'}`); `chat_id` is irrelevant to the
queue logic and omitted. -/
structure QItem where
  url : String
  name : String
  dest : String
  size : Nat
deriving DecidableEq, Repr

/-- Embeds `StorageAwareQueue.has_space`: `available > (self.min_free_bytes + required)`,
`True` on measurement failure. -/
def has_space (minFree : Nat) (env : DiskEnv) (required : Nat) : Bool :=
  match env.free with
  | some available => decide (minFree + required < available)
  | none => true

/-- Embeds `StorageAwareQueue.enqueue`: returns `(queued?, new queue)`.  If
`has_space(size)` the item is not queued (`False`); otherwise it is appended
and `True` is returned. -/
def sq_enqueue (minFree : Nat) (env : DiskEnv) (q : List QItem) (item : QItem) :
    Bool × List QItem :=
  if has_space minFree env item.size then (false, q)
  else (true, q ++ [item])

/-- Embeds `StorageAwareQueue.dequeue`: scan the pending list in order, pop and
return the first item whose `has_space` check succeeds, else `None` with the
queue unchanged. -/
def sq_dequeue (minFree : Nat) (env : DiskEnv) : List QItem → Option QItem × List QItem
  | [] => (none, [])
  | x :: xs =>
    if has_space minFree env x.size then (some x, xs)
    else
      let r := sq_dequeue minFree env xs
      (r.1, x :: r.2)

/-! ## `bot/utils/splitter.py` — binary splitting

`_split_binary` repeatedly writes parts of exactly `CHUNK_SIZE` bytes
(buffered in 1 MB reads, which does not change the bytes each part receives)
until the input is exhausted, naming part `i` as
`f"{base_name}.part{i:03d}"` starting from `part_idx = 1`.  File contents are
modelled as lists over an arbitrary element type. -/

/-- Embeds `CHUNK_SIZE = 1900 * 1024 * 1024` (1.9 GB, "to be safe"). -/
def CHUNK_SIZE : Nat := 1900 * 1024 * 1024

/-- Python `f"{i:03d}"`: decimal digits left-padded with `'0'` to a minimum
width of 3. -/
def pad3 (n : Nat) : String :=
  let s := toString n
  String.mk (List.replicate (3 - s.length) '0') ++ s

/-- The path of part `idx`: `f"{base_name}.part{part_idx:03d}"` (the
directory prefix added by `os.path.join` is common to all parts and
omitted). -/
def part_path (base : String) (idx : Nat) : String :=
  base ++ ".part" ++ pad3 idx

/-- Embeds `_split_binary`, with the chunk limit `L` and the running `part_idx` made
explicit: each iteration writes `min L |data|` elements to the part named
`part_path base idx`, stopping when nothing was written.  The guard `L = 0`
never fires for the source's `CHUNK_SIZE` and exists only to make the
recursion well-founded. -/
def split_binary (L : Nat) (base : String) (idx : Nat) (data : List α) :
    List (String × List α) :=
  if h : L = 0 ∨ data.length = 0 then []
  else (part_path base idx, data.take L) :: split_binary L base (idx + 1) (data.drop L)
termination_by data.length
decreasing_by
  push_neg at h
  have h0 : 0 < L := Nat.pos_of_ne_zero h.1
  have h1 : 0 < data.length := Nat.pos_of_ne_zero h.2
  simpa using Nat.sub_lt h1 h0

/-- Embeds `split_file` on a regular file: if the size is within `CHUNK_SIZE` the
file is returned whole, otherwise it is split (the claim concerns the binary
mode; the ffmpeg path applies only to recognised video extensions). -/
def split_file (base : String) (data : List α) : List (String × List α) :=
  if data.length ≤ CHUNK_SIZE then [(base, data)]
  else split_binary CHUNK_SIZE base 1 data

/-! ## `bot/state.py` — `JsonFileState`

The JSON-file store keeps `processed` (a list, appended to and never
removed from), `intents` (a dict `item_id → dest`) and `uploads` (a dict
`file_hash → {dest: True, ...meta, "ts": ...}`).  Dicts are modelled as
association lists with Python's assignment semantics (replace the binding if
the key exists, append otherwise); the `meta` and `"ts"` keys written by
`mark_uploaded` never collide with the sink names read back by
`is_uploaded` and are omitted. -/

/-- Python dict assignment `d[k] = v` on an association list. -/
def dict_set (l : List (String × β)) (k : String) (v : β) : List (String × β) :=
  match l with
  | [] => [(k, v)]
  | (k', v') :: rest => if k' = k then (k, v) :: rest else (k', v') :: dict_set rest k v

/-- Python dict lookup `d.get(k)` on an association list. -/
def dict_get (l : List (String × β)) (k : String) : Option β :=
  match l with
  | [] => none
  | (k', v') :: rest => if k' = k then some v' else dict_get rest k

/-- The parts of `JsonFileState.data` the claims touch.  Persistence is
modelled by the state value itself: `_save` followed by `_load` yields the
same `data` dict, so a restart resumes from the same `BotState`. -/
structure BotState where
  processed : List String
  intents : List (String × String)
  uploads : List (String × List (String × Bool))
deriving DecidableEq, Repr

/-- Empty store (`JsonFileState.__init__` defaults, fresh file). -/
def initial_state : BotState := ⟨[], [], []⟩

/-- Embeds `JsonFileState.is_processed`: `item_id in self.data.get("processed", [])`. -/
def is_processed (st : BotState) (item_id : String) : Bool :=
  st.processed.contains item_id

/-- Embeds `JsonFileState.add_processed`: `self.data.setdefault("processed", []).append(item_id)`. -/
def add_processed (st : BotState) (item_id : String) : BotState :=
  { st with processed := st.processed ++ [item_id] }

/-- Embeds `JsonFileState.get_intent`: `self.data.get("intents", {}).get(item_id)`. -/
def get_intent (st : BotState) (item_id : String) : Option String :=
  dict_get st.intents item_id

/-- Embeds `JsonFileState.set_intent`: `self.data.setdefault("intents", {})[item_id] = dest`. -/
def set_intent (st : BotState) (item_id : String) (dest : String) : BotState :=
  { st with intents := dict_set st.intents item_id dest }

/-- Embeds `JsonFileState.is_uploaded`:
`bool(self.data.get("uploads", {}).get(file_hash, {}).get(dest))`. -/
def is_uploaded (st : BotState) (file_hash : String) (dest : String) : Bool :=
  (dict_get ((dict_get st.uploads file_hash).getD []) dest).getD false

/-- Embeds `JsonFileState.mark_uploaded`: fetch-or-create the per-hash entry and set
`entry[dest] = True` (the `meta`/`ts` writes do not affect any sink flag). -/
def mark_uploaded (st : BotState) (file_hash : String) (dest : String) : BotState :=
  let entry := (dict_get st.uploads file_hash).getD []
  { st with uploads := dict_set st.uploads file_hash (dict_set entry dest true) }

/-! ## `bot/monitor.py` — `Monitor.check_realdebrid` / `check_seedbox`

Network reads (`rd.list_torrents`, `rd.get_torrent_info`,
`rd.unrestrict_link`, `sb.list_torrents`) are supplied as inputs: the listing
becomes a list argument, and `unrestrict_link` an oracle returning `none`
when the call raises (the code logs and skips that link).  Each call to
`downloader.process_item(...)` is recorded as a `Submission`. -/

/-- A Real-Debrid torrent as consumed by `check_realdebrid`: `id`, `status`
and `filename` from `list_torrents`, plus the `links` that
`get_torrent_info(id)` returns for it. -/
structure RDTorrent where
  id : String
  filename : String
  status : String
  links : List String
deriving DecidableEq, Repr

/-- Result of `rd.unrestrict_link`: `{download, filename, filesize}`. -/
structure Unrestricted where
  download : String
  filename : String
  filesize : Nat
deriving DecidableEq, Repr

/-- One `downloader.process_item(dl_url, name, dest=dest, chat_id=None, size=...)`
call, tagged with the external id it came from. -/
structure Submission where
  tid : String
  url : String
  name : String
  dest : String
  size : Nat
deriving DecidableEq, Repr

/-- Body of the `for t in torrents` loop of `Monitor.check_realdebrid`:
`waiting_files_selection` triggers `select_files` (no submission), a
`downloaded` torrent not yet in the processed set is unrestricted link by
link and submitted, then `add_processed(f"rd_{tid}")` runs. -/
def rd_handle (unrestrict : String → Option Unrestricted)
    (acc : BotState × List Submission) (t : RDTorrent) : BotState × List Submission :=
  let st := acc.1
  let subs := acc.2
  if t.status = "waiting_files_selection" then acc
  else if t.status = "downloaded" then
    if is_processed st ("rd_" ++ t.id) then acc
    else
      let dest := (get_intent st ("rd_" ++ t.id)).getD "telegram"
      let newSubs := t.links.filterMap fun link =>
        (unrestrict link).map fun u =>
          { tid := t.id, url := u.download, name := u.filename, dest := dest,
            size := u.filesize }
      (add_processed st ("rd_" ++ t.id), subs ++ newSubs)
  else acc

/-- Embeds `Monitor.check_realdebrid`: fold the handler over the listed torrents,
returning the updated state and every submission made this cycle. -/
def check_realdebrid (unrestrict : String → Option Unrestricted)
    (st : BotState) (torrents : List RDTorrent) : BotState × List Submission :=
  torrents.foldl (rd_handle unrestrict) (st, [])

/-- A sequence of poll cycles, each against the state the previous cycle
persisted (a restart in between is invisible: `_save`/`_load` round-trips
the `processed` list). -/
def run_rd_cycles (unrestrict : String → Option Unrestricted)
    (st : BotState) : List (List RDTorrent) → BotState × List Submission
  | [] => (st, [])
  | ts :: rest =>
    let c := check_realdebrid unrestrict st ts
    let r := run_rd_cycles unrestrict c.1 rest
    (r.1, c.2 ++ r.2)

/-! ## `Monitor.check_seedbox` (C6) -/

/-- A seedbox torrent as returned by `sb.list_torrents()`:
`{name, hash, size, bytes_done, active, base_path, state?}` (`active` is
unused by the monitor). -/
structure SBTorrent where
  name : String
  hash : String
  size : Nat
  bytes_done : Nat
  state : Option String
  base_path : Option String
deriving DecidableEq, Repr

/-- The completion test of `Monitor.check_seedbox`:
`t.get('state') == 'seeding' or (t['size'] > 0 and t['bytes_done'] == t['size'])`. -/
def seedbox_complete (t : SBTorrent) : Bool :=
  t.state == some "seeding" || (decide (0 < t.size) && decide (t.bytes_done = t.size))

/-- Body of the `for t in torrents` loop of `Monitor.check_seedbox`: a
complete torrent not yet processed and with a `base_path` is submitted as
`sftp://{base_path}` with the recorded intent (default `"telegram"`), then
marked processed. -/
def sb_handle (acc : BotState × List Submission) (t : SBTorrent) :
    BotState × List Submission :=
  let st := acc.1
  let subs := acc.2
  if seedbox_complete t then
    if is_processed st ("sb_" ++ t.hash) then acc
    else
      match t.base_path with
      | none => acc
      | some bp =>
        let sub : Submission :=
          { tid := t.hash, url := "sftp://" ++ bp, name := t.name,
            dest := (get_intent st ("sb_" ++ t.hash)).getD "telegram", size := t.size }
        (add_processed st ("sb_" ++ t.hash), subs ++ [sub])
  else acc

/-- Embeds `Monitor.check_seedbox`. -/
def check_seedbox (st : BotState) (torrents : List SBTorrent) :
    BotState × List Submission :=
  torrents.foldl sb_handle (st, [])

/-- The completion predicate C6 claims: state `"seeding"`, or — only when no
state is reported — `size > 0` with `bytes_done == size`. -/
def claimed_seedbox_complete (t : SBTorrent) : Bool :=
  t.state == some "seeding" ||
    (t.state == none && decide (0 < t.size) && decide (t.bytes_done = t.size))

/-! ## C7 — intent keys: written at acquisition vs read at completion

`main_bot._on_rss_decision` and the `/rd_torrent_gdrive`, `/sb_torrent_gdrive`
handlers record the upload intent under `f"rd:{tid}"` / `f"sb:{thash}"`
(colon), while `Monitor.check_realdebrid` / `check_seedbox` read
`f"rd_{tid}"` / `f"sb_{shash}"` (underscore) and fall back to `"telegram"`. -/

/-- Intent write of `main_bot.rd_torrent_gdrive` (and of the `rd` branch of
`_on_rss_decision`, which uses the same key format with its own `dest`):
`get_state().set_intent(f"rd:{tid}", 'gdrive')`. -/
def rd_torrent_gdrive_intent (st : BotState) (tid : String) : BotState :=
  set_intent st ("rd:" ++ tid) "gdrive"

/-- Intent read of `Monitor.check_realdebrid`:
`dest = self.state.get_intent(f"rd_{tid}") or "telegram"`. -/
def monitor_rd_dest (st : BotState) (tid : String) : String :=
  (get_intent st ("rd_" ++ tid)).getD "telegram"

/-! ## `bot/rss.py` — backend selection (C3)

`RSSManager._add_rss_torrent` picks the service; its cache probe
`_select_service_by_cache` performs hash extraction (magnet regex, or
download + bencode for `.torrent` URLs) and then
`rd_client.check_instant_availability([hash])`.  The two network-dependent
steps come in as inputs: `torrentHash` is the extracted info-hash (`none`
when the regex fails — the bencode path raising is folded into `cacheErr`
below, as both end in the same `return "sb"`), and the availability call's
outcome is either an exception or a dict, modelled as an association list
`hash → truthy?`. -/

/-- Outcome of `rd_client.check_instant_availability([torrent_hash])`:
`cacheErr` when the call (or anything else inside the `try`) raises,
`cacheOk avail` when it returns the availability dict. -/
inductive CacheOutcome where
  | cacheErr : CacheOutcome
  | cacheOk : List (String × Bool) → CacheOutcome
deriving DecidableEq, Repr

/-- Embeds `RSSManager._select_service_by_cache`: `"sb"` when Real-Debrid is not
configured, when no hash could be extracted, or when the cache check errors;
`"rd"` exactly when
`availability and torrent_hash in availability and availability[torrent_hash]`. -/
def select_service_by_cache (rdConfigured : Bool) (torrentHash : Option String)
    (cache : CacheOutcome) : String :=
  if !rdConfigured then "sb"
  else
    match torrentHash with
    | none => "sb"
    | some h =>
      match cache with
      | CacheOutcome.cacheErr => "sb"
      | CacheOutcome.cacheOk avail =>
        if !avail.isEmpty && (dict_get avail h).isSome && (dict_get avail h).getD false
        then "rd" else "sb"

/-- The service-selection step of `RSSManager._add_rss_torrent`: a forced
`service in ["rd", "sb"]` wins; otherwise a private feed goes to the seedbox;
otherwise the cache probe decides. -/
def select_service (service : Option String) (priv : Bool) (rdConfigured : Bool)
    (torrentHash : Option String) (cache : CacheOutcome) : String :=
  if service = some "rd" ∨ service = some "sb" then service.getD "sb"
  else if priv then "sb"
  else select_service_by_cache rdConfigured torrentHash cache

/-! ## `bot/downloader.py` — `Downloader._download_file` HTTP retry (C8)

Per-attempt network behaviour comes in as an oracle `outcomes : Nat →
FetchOutcome`; attempt `i` either streams to completion (`success`), raises
`requests.exceptions.HTTPError` (from `raise_for_status`, which always
carries the response's status code), or raises a `ConnectionError` /
`Timeout` (no response, so `getattr(e.response, 'status_code', None)` is
`None`). -/

/-- What one `requests.get(...)` attempt does. -/
inductive FetchOutcome where
  | success : FetchOutcome
  | httpError : Nat → FetchOutcome
  | connError : FetchOutcome
  | timeout : FetchOutcome
deriving DecidableEq, Repr

/-- Embeds `getattr(e.response, 'status_code', None)` for a raised attempt. -/
def outcome_status : FetchOutcome → Option Nat
  | FetchOutcome.httpError s => some s
  | _ => none

/-- The retry predicate of `_download_file`:
`status_code in [500, 502, 503, 504, 429] or status_code is None`. -/
def retryable_error (e : FetchOutcome) : Bool :=
  match outcome_status e with
  | some s => decide (s ∈ [500, 502, 503, 504, 429])
  | none => true

/-- Embeds `max_retries = 5`. -/
def max_retries : Nat := 5

/-- Result of the retry loop: the 0-based attempt it ended on and the list
of `time.sleep` durations performed between attempts; a raised result also
carries the error that escaped. -/
inductive FetchResult where
  | ok : Nat → List Nat → FetchResult
  | raised : FetchOutcome → Nat → List Nat → FetchResult
deriving DecidableEq, Repr

/-- The `for attempt in range(max_retries)` loop of `_download_file` from a
given attempt on: success returns; a retryable error before the last attempt
sleeps `2 ** attempt` seconds and continues; anything else re-raises. -/
def download_attempt (outcomes : Nat → FetchOutcome) (attempt : Nat) : FetchResult :=
  match outcomes attempt with
  | FetchOutcome.success => FetchResult.ok attempt []
  | e =>
    if h : attempt < max_retries - 1 ∧ retryable_error e = true then
      match download_attempt outcomes (attempt + 1) with
      | FetchResult.ok a ws => FetchResult.ok a (2 ^ attempt :: ws)
      | FetchResult.raised er a ws => FetchResult.raised er a (2 ^ attempt :: ws)
    else FetchResult.raised e attempt []
termination_by max_retries - attempt
decreasing_by
  omega

/-- Embeds `Downloader._download_file` on an HTTP url: run the loop from attempt 0. -/
def download_file (outcomes : Nat → FetchOutcome) : FetchResult :=
  download_attempt outcomes 0

/-- The attempt number a `FetchResult` ended on. -/
def fetch_final : FetchResult → Nat
  | FetchResult.ok a _ => a
  | FetchResult.raised _ a _ => a

/-- The sleeps a `FetchResult` performed. -/
def fetch_waits : FetchResult → List Nat
  | FetchResult.ok _ ws => ws
  | FetchResult.raised _ _ ws => ws

/-- The invariant the retry loop maintains from a given attempt on. -/
def fetch_spec (outcomes : Nat → FetchOutcome) (attempt : Nat) : Prop :=
  attempt ≤ fetch_final (download_attempt outcomes attempt) ∧
  fetch_final (download_attempt outcomes attempt) ≤ max_retries - 1 ∧
  (∀ i, attempt ≤ i → i < fetch_final (download_attempt outcomes attempt) →
    outcomes i ≠ FetchOutcome.success ∧ retryable_error (outcomes i) = true) ∧
  (∀ e a ws, download_attempt outcomes attempt = FetchResult.raised e a ws →
    e = outcomes a ∧ (a = max_retries - 1 ∨ retryable_error e = false)) ∧
  (∀ a ws, download_attempt outcomes attempt = FetchResult.ok a ws →
    outcomes a = FetchOutcome.success) ∧
  fetch_waits (download_attempt outcomes attempt) =
    (List.range' attempt (fetch_final (download_attempt outcomes attempt) - attempt)).map
      (fun i => 2 ^ i)

/-- A concrete network trace: attempt 0 hits a 503, attempt 1 times out,
attempt 2 hits a 404. -/
def retry_demo_oracle : Nat → FetchOutcome := fun i =>
  if i = 0 then FetchOutcome.httpError 503
  else if i = 1 then FetchOutcome.timeout
  else FetchOutcome.httpError 404

/-! ## `bot/rss.py` — `RSSManager._poll_feed` (C9, C10)

`feedparser` output is modelled structurally: an entry has optional `id` and
`link`, enclosure and link lists, an optional title and the two optional
parsed timestamps.  The MD5 digest, the success of `_add_rss_torrent` and
the current time come in as parameters (`digest`, `add_ok`, `now`);
timestamps are numbers. -/

/-- An RSS enclosure: `{"type": ..., "href": ...}`, either key may be
missing. -/
structure Enclosure where
  enc_type : Option String
  href : Option String
deriving DecidableEq, Repr

/-- An entry of `links`: `link.get("href", "")`. -/
structure LinkRef where
  href : String
deriving DecidableEq, Repr

/-- A parsed feed entry as `_poll_feed` consumes it. -/
structure FeedEntry where
  entry_id : Option String
  link : Option String
  enclosures : List Enclosure
  links : List LinkRef
  title : Option String
  published_parsed : Option Nat
  updated_parsed : Option Nat
deriving DecidableEq, Repr

/-- A feed record as stored in `self.feeds` (the fields `_poll_feed`
touches). -/
structure Feed where
  url : String
  service : Option String
  private_flag : Bool
  last_check : Option Nat
  seen_guids : List String
  delete_after_upload : Bool
deriving DecidableEq, Repr

/-- Embeds `RSSManager._extract_torrent_url`: the entry's own truthy `link` if it
is magnet- or torrent-like; else the `href` of the first
`application/x-bittorrent` enclosure (returned even when that `href` is
missing — the loop `return`s there); else the first magnet- or torrent-like
`href` among `links`. -/
def extract_torrent_url (e : FeedEntry) : Option String :=
  let from_enclosures :=
    match e.enclosures.find? (fun enc => enc.enc_type == some "application/x-bittorrent") with
    | some enc => enc.href
    | none =>
      match e.links.find? (fun l => l.href.startsWith "magnet:" || l.href.endsWith ".torrent") with
      | some l => some l.href
      | none => none
  match e.link with
  | some l =>
    if l ≠ "" then
      if l.startsWith "magnet:" || l.endsWith ".torrent" then some l else from_enclosures
    else from_enclosures
  | none => from_enclosures

/-- Python `a or b` for optional strings (`None` and `""` are falsy). -/
def py_str_or (a : Option String) (b : String) : String :=
  match a with
  | some s => if s = "" then b else s
  | none => b

/-- The `entry_guid` whose MD5 keys the seen set:
`entry.get("id") or entry.get("link") or torrent_url`. -/
def entry_guid (e : FeedEntry) (torrent_url : String) : String :=
  py_str_or e.entry_id (py_str_or e.link torrent_url)

/-- Embeds `entry_time`: `published_parsed`, else `updated_parsed` (either may be
missing). -/
def entry_time (e : FeedEntry) : Option Nat :=
  match e.published_parsed with
  | some t => some t
  | none => e.updated_parsed

/-- One iteration of the `for entry in parsed.entries` loop of `_poll_feed`.
The accumulator is `(new_items, seen_guids, attempted additions)`; an
"attempted addition" is a call of `_add_rss_torrent` (a torrent submitted
toward one of the backends), recorded as `(torrent_url, title)`. -/
def poll_entry (digest : String → String) (add_ok : String → Bool)
    (last_check : Option Nat) (acc : Nat × List String × List (String × String))
    (e : FeedEntry) : Nat × List String × List (String × String) :=
  let n := acc.1
  let seen := acc.2.1
  let subs := acc.2.2
  match extract_torrent_url e with
  | none => acc
  | some url =>
    let h := digest (entry_guid e url)
    if seen.contains h then acc
    else
      match last_check with
      | none => (n, seen ++ [h], subs)
      | some lc =>
        let stale := match entry_time e with
          | some t => decide (t ≤ lc)
          | none => false
        if stale then (n, seen ++ [h], subs)
        else
          let subs' := subs ++ [(url, (e.title).getD "Unknown")]
          if add_ok url then (n + 1, seen ++ [h], subs') else (n, seen, subs')

/-- The entry loop of `_poll_feed`, starting from the feed's stored
`seen_guids` and `new_items = 0`. -/
def poll_feed_loop (digest : String → String) (add_ok : String → Bool)
    (last_check : Option Nat) (seen0 : List String) (entries : List FeedEntry) :
    Nat × List String × List (String × String) :=
  entries.foldl (poll_entry digest add_ok last_check) (0, seen0, [])

/-- Embeds `RSSManager._poll_feed`: run the loop, then set `last_check` to the
current time and keep only the last 1000 seen GUIDs.  Returns the item count
the poll reports, the updated feed record, and the attempted additions. -/
def poll_feed (digest : String → String) (add_ok : String → Bool) (now : Nat)
    (f : Feed) (entries : List FeedEntry) : Nat × Feed × List (String × String) :=
  let r := poll_feed_loop digest add_ok f.last_check f.seen_guids entries
  let seen' := if 1000 < r.2.1.length then r.2.1.drop (r.2.1.length - 1000) else r.2.1
  (r.1, { f with last_check := some now, seen_guids := seen' }, r.2.2)

/-! ## `Downloader._run_task` upload phase vs the upload ledger (C1)

The state layer implements the upload ledger (`is_uploaded` /
`mark_uploaded` above, under the source's "UPLOAD RESUME" heading), but the
upload phase of `Downloader._run_task` (steps 2–4: `packager.prepare`, the
`for item in items_to_upload` loop calling `_upload_telegram` /
`_upload_gdrive`, cleanup) performs no state call at all: it neither hashes
the file, nor checks `is_uploaded`, nor calls `mark_uploaded` after a
delivery. -/

/-- An element of `items_to_upload` as produced by `packager.prepare` (or the
single-file fallback `{"name": name, "path": local_path, "zipped": False}`). -/
structure PrepItem where
  name : String
  path : String
  zipped : Bool
  zip_path : Option String
  skipped : Bool
deriving DecidableEq, Repr

/-- The upload loop of `_run_task`: every non-skipped item is uploaded at
`item.get("zip_path") or item["path"]`, unconditionally; the state store is
neither read nor written, so it is returned unchanged. -/
def run_task_uploads (st : BotState) (items : List PrepItem) :
    List String × BotState :=
  (items.filterMap fun it =>
    if it.skipped then none else some ((it.zip_path).getD it.path), st)

/-! ## Theorems -/

theorem sq_dequeue_eq (minFree : Nat) (env : DiskEnv) (q : List QItem) :
    sq_dequeue minFree env q =
      (q.find? (fun it => has_space minFree env it.size),
       q.eraseP (fun it => has_space minFree env it.size)) := by
  induction q with
  | nil => rfl
  | cons x xs ih =>
    by_cases h : has_space minFree env x.size
    · simp [sq_dequeue, h, List.find?_cons, List.eraseP_cons]
    · simp [sq_dequeue, h, List.find?_cons, List.eraseP_cons, ih]

/-- C5: an item whose space check fails is queued by `enqueue` (appended to
the pending list, `queued = true`); `dequeue` only ever returns items whose
space check succeeds, it removes and returns the first fitting item in
insertion order, and it returns `none` (queue unchanged) when no pending item
fits. -/
theorem storage_queue_spec (minFree : Nat) (env : DiskEnv) (q : List QItem)
    (item : QItem) (hfail : has_space minFree env item.size = false) :
    sq_enqueue minFree env q item = (true, q ++ [item]) ∧
    (∀ q2 it rest, sq_dequeue minFree env q2 = (some it, rest) →
      has_space minFree env it.size = true) ∧
    (∀ q2, sq_dequeue minFree env q2 =
      (q2.find? (fun it => has_space minFree env it.size),
       q2.eraseP (fun it => has_space minFree env it.size))) ∧
    (∀ q2, (∀ it ∈ q2, has_space minFree env it.size = false) →
      sq_dequeue minFree env q2 = (none, q2)) := by
  refine ⟨by simp [sq_enqueue, hfail], ?_, sq_dequeue_eq minFree env, ?_⟩
  · intro q2 it rest hdq
    have h := sq_dequeue_eq minFree env q2
    rw [hdq] at h
    have hfind : q2.find? (fun it => has_space minFree env it.size) = some it :=
      (Prod.mk.injEq _ _ _ _ ▸ h).1.symm
    have := List.find?_some hfind
    simpa using this
  · intro q2 hall
    rw [sq_dequeue_eq]
    have hfind : q2.find? (fun it => has_space minFree env it.size) = none := by
      rw [List.find?_eq_none]
      intro x hx
      simp [hall x hx]
    have herase : q2.eraseP (fun it => has_space minFree env it.size) = q2 := by
      rw [List.eraseP_eq_self_iff]
      intro x hx
      simp [hall x hx]
    rw [hfind, herase]

/-- Witness for `storage_queue_spec`: free = 5 GB, `min_free` = 20 GB,
item of 1 GB (the spec's §8 example) fails the space check and is queued. -/
theorem storage_queue_spec_witness :
    has_space (20 * 1024^3) ⟨some (5 * 1024^3)⟩ (1024^3) = false ∧
    sq_enqueue (20 * 1024^3) ⟨some (5 * 1024^3)⟩ []
      ⟨"http://x", "a.bin", "telegram", 1024^3⟩ =
      (true, [⟨"http://x", "a.bin", "telegram", 1024^3⟩]) := by
  refine ⟨by decide, ?_⟩
  exact (storage_queue_spec (20 * 1024^3) ⟨some (5 * 1024^3)⟩ []
    ⟨"http://x", "a.bin", "telegram", 1024^3⟩ (by decide)).1

theorem split_binary_nil (L : Nat) (base : String) (idx : Nat) :
    split_binary L base idx ([] : List α) = [] := by
  rw [split_binary]
  simp

theorem split_binary_cons (L : Nat) (base : String) (idx : Nat) (data : List α)
    (hL : L ≠ 0) (hd : data ≠ []) :
    split_binary L base idx data =
      (part_path base idx, data.take L) :: split_binary L base (idx + 1) (data.drop L) := by
  rw [split_binary]
  simp [hL, List.length_eq_zero, hd]

theorem split_binary_length (L : Nat) (base : String) (hL : 0 < L) :
    ∀ (n : Nat) (idx : Nat) (data : List α), data.length ≤ n →
      (split_binary L base idx data).length = (data.length + L - 1) / L := by
  intro n
  induction n with
  | zero =>
    intro idx data hlen
    have : data = [] := List.eq_nil_of_length_eq_zero (Nat.le_zero.mp hlen)
    subst this
    rw [split_binary_nil]
    simp only [List.length_nil, Nat.zero_add]
    exact (Nat.div_eq_of_lt (by omega : L - 1 < L)).symm
  | succ m ih =>
    intro idx data hlen
    rcases eq_or_ne data [] with h | h
    · subst h
      rw [split_binary_nil]
      simp only [List.length_nil, Nat.zero_add]
      exact (Nat.div_eq_of_lt (by omega : L - 1 < L)).symm
    · rw [split_binary_cons L base idx data (Nat.pos_iff_ne_zero.mp hL) h]
      have hpos : 0 < data.length := List.length_pos.mpr h
      have hdrop : (data.drop L).length ≤ m := by
        rw [List.length_drop]
        omega
      rw [List.length_cons, ih (idx + 1) (data.drop L) hdrop, List.length_drop]
      rcases Nat.le_total data.length L with hle | hle
      · have h1 : data.length - L + L - 1 = L - 1 := by omega
        rw [h1, Nat.div_eq_of_lt (by omega : L - 1 < L)]
        have h3 : data.length + L - 1 = (data.length - 1) + L := by omega
        rw [h3, Nat.add_div_right _ hL, Nat.div_eq_of_lt (by omega : data.length - 1 < L)]
      · have h3 : data.length + L - 1 = (data.length - L + L - 1) + L := by omega
        rw [h3, Nat.add_div_right _ hL]

theorem split_binary_join (L : Nat) (base : String) (hL : 0 < L) :
    ∀ (n : Nat) (idx : Nat) (data : List α), data.length ≤ n →
      ((split_binary L base idx data).map Prod.snd).join = data := by
  intro n
  induction n with
  | zero =>
    intro idx data hlen
    have : data = [] := List.eq_nil_of_length_eq_zero (Nat.le_zero.mp hlen)
    subst this
    rw [split_binary_nil]
    rfl
  | succ m ih =>
    intro idx data hlen
    rcases eq_or_ne data [] with h | h
    · subst h
      rw [split_binary_nil]
      rfl
    · rw [split_binary_cons L base idx data (Nat.pos_iff_ne_zero.mp hL) h]
      have hpos : 0 < data.length := List.length_pos.mpr h
      have hdrop : (data.drop L).length ≤ m := by
        rw [List.length_drop]
        omega
      simp only [List.map_cons, List.join_cons, ih (idx + 1) (data.drop L) hdrop]
      exact List.take_append_drop L data

theorem split_binary_names (L : Nat) (base : String) (hL : 0 < L) :
    ∀ (n : Nat) (idx : Nat) (data : List α), data.length ≤ n →
      (split_binary L base idx data).map Prod.fst =
        (List.range' idx (split_binary L base idx data).length).map (part_path base) := by
  intro n
  induction n with
  | zero =>
    intro idx data hlen
    have : data = [] := List.eq_nil_of_length_eq_zero (Nat.le_zero.mp hlen)
    subst this
    rw [split_binary_nil]
    rfl
  | succ m ih =>
    intro idx data hlen
    rcases eq_or_ne data [] with h | h
    · subst h
      rw [split_binary_nil]
      rfl
    · rw [split_binary_cons L base idx data (Nat.pos_iff_ne_zero.mp hL) h]
      have hpos : 0 < data.length := List.length_pos.mpr h
      have hdrop : (data.drop L).length ≤ m := by
        rw [List.length_drop]
        omega
      simp only [List.map_cons, List.length_cons, List.range'_succ, ih (idx + 1) (data.drop L) hdrop]

theorem split_binary_middle_parts (L : Nat) (base : String) (hL : 0 < L) :
    ∀ (n : Nat) (idx : Nat) (data : List α), data.length ≤ n →
      ∀ c ∈ ((split_binary L base idx data).map Prod.snd).dropLast, c.length = L := by
  intro n
  induction n with
  | zero =>
    intro idx data hlen c hc
    have : data = [] := List.eq_nil_of_length_eq_zero (Nat.le_zero.mp hlen)
    subst this
    rw [split_binary_nil] at hc
    simp at hc
  | succ m ih =>
    intro idx data hlen c hc
    rcases eq_or_ne data [] with h | h
    · subst h
      rw [split_binary_nil] at hc
      simp at hc
    · rw [split_binary_cons L base idx data (Nat.pos_iff_ne_zero.mp hL) h] at hc
      rcases eq_or_ne (data.drop L) [] with hdz | hdz
      · rw [hdz, split_binary_nil] at hc
        simp at hc
      · have hrec_ne : split_binary L base (idx + 1) (data.drop L) ≠ [] := by
          rw [split_binary_cons L base (idx + 1) (data.drop L) (Nat.pos_iff_ne_zero.mp hL) hdz]
          simp
        have hmap_ne : (split_binary L base (idx + 1) (data.drop L)).map Prod.snd ≠ [] := by
          simpa using hrec_ne
        rw [List.map_cons, List.dropLast_cons_of_ne_nil hmap_ne] at hc
        have hdrop : (data.drop L).length ≤ m := by
          have hpos : 0 < data.length := List.length_pos.mpr h
          rw [List.length_drop]
          omega
        rcases List.mem_cons.mp hc with hc1 | hc2
        · subst hc1
          have hlong : L ≤ data.length := by
            by_contra hlt
            push_neg at hlt
            exact hdz (List.drop_eq_nil_of_le (Nat.le_of_lt hlt))
          simp [List.length_take, Nat.min_eq_left hlong]
        · exact ih (idx + 1) (data.drop L) hdrop c hc2

/-- C4: binary splitting of a non-empty file of size `S` with (positive)
chunk limit `L` produces exactly `⌈S/L⌉` parts, every part but possibly the
last holds exactly `L` bytes, the parts concatenated in order reproduce the
original bytes exactly, and the parts are named with ascending zero-padded
3-digit ordinals starting at 001. -/
theorem split_binary_spec (L : Nat) (base : String) (data : List α)
    (hL : 0 < L) (hdata : data ≠ []) :
    (split_binary L base 1 data).length = (data.length + L - 1) / L ∧
    ((split_binary L base 1 data).map Prod.snd).join = data ∧
    (∀ c ∈ ((split_binary L base 1 data).map Prod.snd).dropLast, c.length = L) ∧
    (split_binary L base 1 data).map Prod.fst =
      (List.range' 1 (split_binary L base 1 data).length).map (part_path base) := by
  exact ⟨split_binary_length L base hL data.length 1 data le_rfl,
    split_binary_join L base hL data.length 1 data le_rfl,
    split_binary_middle_parts L base hL data.length 1 data le_rfl,
    split_binary_names L base hL data.length 1 data le_rfl⟩

/-- Witness for `split_binary_spec`: a 5-element file with chunk limit 2
(same shape as the spec's 4.5 GB / 1.9 GB example: `⌈5/2⌉ = 3` parts sized
2, 2, 1). -/
theorem split_binary_spec_witness :
    (0 < 2 ∧ ([0, 1, 2, 3, 4] : List Nat) ≠ []) ∧
    ((split_binary 2 "f.bin" 1 ([0, 1, 2, 3, 4] : List Nat)).length = (5 + 2 - 1) / 2 ∧
    ((split_binary 2 "f.bin" 1 ([0, 1, 2, 3, 4] : List Nat)).map Prod.snd).join = [0, 1, 2, 3, 4] ∧
    (∀ c ∈ ((split_binary 2 "f.bin" 1 ([0, 1, 2, 3, 4] : List Nat)).map Prod.snd).dropLast,
      c.length = 2) ∧
    (split_binary 2 "f.bin" 1 ([0, 1, 2, 3, 4] : List Nat)).map Prod.fst =
      (List.range' 1 (split_binary ((2 : Nat)) "f.bin" 1 ([0, 1, 2, 3, 4] : List Nat)).length).map
        (part_path "f.bin")) :=
  ⟨⟨by decide, by decide⟩,
   split_binary_spec 2 "f.bin" ([0, 1, 2, 3, 4] : List Nat) (by decide) (by decide)⟩

theorem rd_handle_shape (unrestrict : String → Option Unrestricted)
    (acc : BotState × List Submission) (t : RDTorrent) :
    (∃ new, (rd_handle unrestrict acc t).1.processed = acc.1.processed ++ new) ∧
    (∃ subs, (rd_handle unrestrict acc t).2 = acc.2 ++ subs ∧
      (∀ s ∈ subs, s.tid = t.id) ∧
      (subs ≠ [] → is_processed acc.1 ("rd_" ++ t.id) = false)) ∧
    (is_processed acc.1 ("rd_" ++ t.id) = false →
      t.status = "downloaded" →
      is_processed (rd_handle unrestrict acc t).1 ("rd_" ++ t.id) = true) := by
  unfold rd_handle
  by_cases h1 : t.status = "waiting_files_selection"
  · simp only [h1, if_true]
    refine ⟨⟨[], by simp⟩, ⟨[], by simp, by simp, by simp⟩, ?_⟩
    intro _ h2
    exact absurd h2 (by decide)
  · by_cases h2 : t.status = "downloaded"
    · by_cases h3 : is_processed acc.1 ("rd_" ++ t.id)
      · simp only [h1, if_false, h2, if_true, h3, if_true]
        exact ⟨⟨[], by simp⟩, ⟨[], by simp, by simp, by simp [h3]⟩, by simp [h3]⟩
      · simp only [h1, if_false, h2, if_true, h3, if_false, Bool.false_eq_true]
        refine ⟨⟨["rd_" ++ t.id], by simp [add_processed]⟩, ?_, ?_⟩
        · refine ⟨_, rfl, ?_, fun _ => by simpa using h3⟩
          intro s hs
          rcases List.mem_filterMap.mp hs with ⟨link, _, hmap⟩
          rcases Option.map_eq_some'.mp hmap with ⟨u, _, hu⟩
          rw [← hu]
        · intro _ _
          simp [is_processed, add_processed]
    · simp only [h1, if_false, h2, if_false]
      exact ⟨⟨[], by simp⟩, ⟨[], by simp, by simp, by simp⟩, by simp [h2]⟩

theorem check_realdebrid_fold (unrestrict : String → Option Unrestricted)
    (torrents : List RDTorrent) :
    ∀ (acc : BotState × List Submission),
      (∃ new, (torrents.foldl (rd_handle unrestrict) acc).1.processed =
        acc.1.processed ++ new) ∧
      (∃ subs, (torrents.foldl (rd_handle unrestrict) acc).2 = acc.2 ++ subs ∧
        ∀ s ∈ subs, ∃ t ∈ torrents, s.tid = t.id ∧
          is_processed acc.1 ("rd_" ++ t.id) = false) := by
  induction torrents with
  | nil => intro acc; exact ⟨⟨[], by simp⟩, ⟨[], by simp, by simp⟩⟩
  | cons t ts ih =>
    intro acc
    obtain ⟨⟨new1, hnew1⟩, ⟨subs1, hsubs1, hall1, hne1⟩, -⟩ :=
      rd_handle_shape unrestrict acc t
    obtain ⟨⟨new2, hnew2⟩, ⟨subs2, hsubs2, hall2⟩⟩ := ih (rd_handle unrestrict acc t)
    constructor
    · exact ⟨new1 ++ new2, by
        simp only [List.foldl_cons, hnew2, hnew1, List.append_assoc]⟩
    · refine ⟨subs1 ++ subs2, by
        simp only [List.foldl_cons, hsubs2, hsubs1, List.append_assoc], ?_⟩
      intro s hs
      rcases List.mem_append.mp hs with hs1 | hs2
      · exact ⟨t, List.mem_cons_self t ts, hall1 s hs1,
          hne1 (List.ne_nil_of_mem hs1)⟩
      · obtain ⟨t', ht', htid, hproc⟩ := hall2 s hs2
        refine ⟨t', List.mem_cons_of_mem t ht', htid, ?_⟩
        by_contra hcontra
        have hmem : ("rd_" ++ t'.id) ∈ acc.1.processed := by
          have := Bool.not_eq_false _ |>.mp hcontra
          simpa [is_processed] using this
        have : ("rd_" ++ t'.id) ∈ (rd_handle unrestrict acc t).1.processed := by
          rw [hnew1]
          exact List.mem_append_left _ hmem
        simp [is_processed, this] at hproc

theorem check_realdebrid_no_resubmit (unrestrict : String → Option Unrestricted)
    (st : BotState) (torrents : List RDTorrent) (tid : String)
    (hmarked : ("rd_" ++ tid) ∈ st.processed) :
    tid ∉ (check_realdebrid unrestrict st torrents).2.map Submission.tid := by
  obtain ⟨_, ⟨subs, hsubs, hall⟩⟩ := check_realdebrid_fold unrestrict torrents (st, [])
  have h2 : (check_realdebrid unrestrict st torrents).2 = [] ++ subs := hsubs
  rw [h2]
  intro hmem
  simp only [List.nil_append, List.mem_map] at hmem
  obtain ⟨s, hs, hstid⟩ := hmem
  obtain ⟨t, _, htid, hproc⟩ := hall s hs
  rw [hstid] at htid
  rw [← htid] at hproc
  simp only [is_processed] at hproc
  have : ("rd_" ++ tid) ∈ (st, ([] : List Submission)).1.processed := hmarked
  simp [this] at hproc

/-- C2: once the processed-marker set contains an external id, no number of
further `check_realdebrid` poll cycles (each resuming from the state the
previous cycle persisted, as a restart does) submits a transfer for that id
again, and the marker set only ever grows (ids are appended, never
removed). -/
theorem processed_marker_spec (unrestrict : String → Option Unrestricted)
    (st : BotState) (cycles : List (List RDTorrent)) (tid : String)
    (hmarked : ("rd_" ++ tid) ∈ st.processed) :
    tid ∉ (run_rd_cycles unrestrict st cycles).2.map Submission.tid ∧
    (∃ new, (run_rd_cycles unrestrict st cycles).1.processed = st.processed ++ new) := by
  induction cycles generalizing st with
  | nil => exact ⟨by simp [run_rd_cycles], ⟨[], by simp [run_rd_cycles]⟩⟩
  | cons ts rest ih =>
    obtain ⟨⟨new1, hnew1'⟩, _⟩ := check_realdebrid_fold unrestrict ts (st, [])
    have hnew1 : (check_realdebrid unrestrict st ts).1.processed = st.processed ++ new1 :=
      hnew1'
    have hmarked1 : ("rd_" ++ tid) ∈ (check_realdebrid unrestrict st ts).1.processed := by
      rw [hnew1]
      exact List.mem_append_left _ hmarked
    obtain ⟨ihsub, ⟨new2, hnew2⟩⟩ := ih (check_realdebrid unrestrict st ts).1 hmarked1
    have hcons : run_rd_cycles unrestrict st (ts :: rest) =
        ((run_rd_cycles unrestrict (check_realdebrid unrestrict st ts).1 rest).1,
         (check_realdebrid unrestrict st ts).2 ++
           (run_rd_cycles unrestrict (check_realdebrid unrestrict st ts).1 rest).2) := rfl
    rw [hcons]
    constructor
    · simp only [List.map_append, List.mem_append]
      push_neg
      exact ⟨check_realdebrid_no_resubmit unrestrict st ts tid hmarked, ihsub⟩
    · refine ⟨new1 ++ new2, ?_⟩
      simp only [hnew2, hnew1, List.append_assoc]

/-- Witness for `processed_marker_spec`: id `t1` is already marked; two
further cycles both listing it as `downloaded` submit nothing for it. -/
theorem processed_marker_spec_witness :
    ("rd_t1" ∈ (⟨["rd_t1"], [], []⟩ : BotState).processed) ∧
    ("t1" ∉ (run_rd_cycles (fun l => some ⟨l, "video.mp4", 10⟩)
        ⟨["rd_t1"], [], []⟩
        [[⟨"t1", "video.mp4", "downloaded", ["http://host/f"]⟩],
         [⟨"t1", "video.mp4", "downloaded", ["http://host/f"]⟩]]).2.map Submission.tid ∧
      ∃ new, (run_rd_cycles (fun l => some ⟨l, "video.mp4", 10⟩)
        ⟨["rd_t1"], [], []⟩
        [[⟨"t1", "video.mp4", "downloaded", ["http://host/f"]⟩],
         [⟨"t1", "video.mp4", "downloaded", ["http://host/f"]⟩]]).1.processed =
        ["rd_t1"] ++ new) :=
  ⟨by decide,
   processed_marker_spec (fun l => some ⟨l, "video.mp4", 10⟩) ⟨["rd_t1"], [], []⟩
     [[⟨"t1", "video.mp4", "downloaded", ["http://host/f"]⟩],
      [⟨"t1", "video.mp4", "downloaded", ["http://host/f"]⟩]] "t1" (by decide)⟩

/-- C6 counterexample: the code's completion test is not the claimed one.  A
torrent whose reported state is `"downloading"` (present, not `"seeding"`)
with `bytes_done == size > 0` is treated as complete by the code, while the
claim (fallback only when the state is absent) says it is not. -/
theorem seedbox_complete_counterexample :
    ¬ (∀ t : SBTorrent, seedbox_complete t = claimed_seedbox_complete t) := by
  intro h
  have := h ⟨"linux.iso", "h1", 100, 100, some "downloading", some "/home/user/linux.iso"⟩
  simp [seedbox_complete, claimed_seedbox_complete] at this

theorem sb_handle_shape (acc : BotState × List Submission) (t : SBTorrent) :
    (∃ new, (sb_handle acc t).1.processed = acc.1.processed ++ new) ∧
    (∃ subs, (sb_handle acc t).2 = acc.2 ++ subs ∧
      (∀ s ∈ subs, s.tid = t.hash ∧ seedbox_complete t = true) ∧
      (subs ≠ [] → is_processed acc.1 ("sb_" ++ t.hash) = false)) := by
  unfold sb_handle
  by_cases h1 : seedbox_complete t
  · by_cases h2 : is_processed acc.1 ("sb_" ++ t.hash)
    · simp only [h1, if_true, h2, if_true]
      exact ⟨⟨[], by simp⟩, ⟨[], by simp, by simp, by simp⟩⟩
    · simp only [h1, if_true, h2, Bool.false_eq_true, if_false]
      cases hbp : t.base_path with
      | none => exact ⟨⟨[], by simp⟩, ⟨[], by simp, by simp, by simp⟩⟩
      | some bp =>
        refine ⟨⟨["sb_" ++ t.hash], by simp [add_processed]⟩, ⟨_, rfl, ?_, ?_⟩⟩
        · intro s hs
          rcases List.mem_singleton.mp hs with rfl
          exact ⟨rfl, by simp [h1]⟩
        · intro _
          simpa using h2
  · simp only [h1, Bool.false_eq_true, if_false]
    exact ⟨⟨[], by simp⟩, ⟨[], by simp, by simp, by simp⟩⟩

theorem check_seedbox_fold (torrents : List SBTorrent) :
    ∀ (acc : BotState × List Submission),
      (∃ new, (torrents.foldl sb_handle acc).1.processed = acc.1.processed ++ new) ∧
      (∃ subs, (torrents.foldl sb_handle acc).2 = acc.2 ++ subs ∧
        ∀ s ∈ subs, ∃ t ∈ torrents, s.tid = t.hash ∧ seedbox_complete t = true ∧
          is_processed acc.1 ("sb_" ++ t.hash) = false) := by
  induction torrents with
  | nil => intro acc; exact ⟨⟨[], by simp⟩, ⟨[], by simp, by simp⟩⟩
  | cons t ts ih =>
    intro acc
    obtain ⟨⟨new1, hnew1⟩, ⟨subs1, hsubs1, hall1, hne1⟩⟩ := sb_handle_shape acc t
    obtain ⟨⟨new2, hnew2⟩, ⟨subs2, hsubs2, hall2⟩⟩ := ih (sb_handle acc t)
    constructor
    · exact ⟨new1 ++ new2, by
        simp only [List.foldl_cons, hnew2, hnew1, List.append_assoc]⟩
    · refine ⟨subs1 ++ subs2, by
        simp only [List.foldl_cons, hsubs2, hsubs1, List.append_assoc], ?_⟩
      intro s hs
      rcases List.mem_append.mp hs with hs1 | hs2
      · exact ⟨t, List.mem_cons_self t ts, (hall1 s hs1).1, (hall1 s hs1).2,
          hne1 (List.ne_nil_of_mem hs1)⟩
      · obtain ⟨t', ht', htid, hcomp, hproc⟩ := hall2 s hs2
        refine ⟨t', List.mem_cons_of_mem t ht', htid, hcomp, ?_⟩
        by_contra hcontra
        have hmem : ("sb_" ++ t'.hash) ∈ acc.1.processed := by
          have := Bool.not_eq_false _ |>.mp hcontra
          simpa [is_processed] using this
        have : ("sb_" ++ t'.hash) ∈ (sb_handle acc t).1.processed := by
          rw [hnew1]
          exact List.mem_append_left _ hmem
        simp [is_processed, this] at hproc

/-- C6 (amended): `check_seedbox` treats a torrent as complete exactly when
its reported state is `"seeding"` or when `size > 0` and `bytes_done = size`
— the size fallback applies whether or not a state is reported — and every
transfer it submits comes from a torrent in the listing that satisfies this
completion test; a torrent already marked processed is never submitted. -/
theorem seedbox_completion_spec (st : BotState) (torrents : List SBTorrent) :
    (∀ t : SBTorrent, seedbox_complete t = true ↔
      (t.state = some "seeding" ∨ (0 < t.size ∧ t.bytes_done = t.size))) ∧
    (∀ s ∈ (check_seedbox st torrents).2, ∃ t ∈ torrents,
      s.tid = t.hash ∧ seedbox_complete t = true) ∧
    (∀ h, ("sb_" ++ h) ∈ st.processed →
      h ∉ (check_seedbox st torrents).2.map Submission.tid) := by
  refine ⟨?_, ?_, ?_⟩
  · intro t
    simp [seedbox_complete]
  · intro s hs
    obtain ⟨_, ⟨subs, hsubs, hall⟩⟩ := check_seedbox_fold torrents (st, [])
    have h2 : (check_seedbox st torrents).2 = [] ++ subs := hsubs
    rw [h2] at hs
    obtain ⟨t, ht, htid, hcomp, _⟩ := hall s (by simpa using hs)
    exact ⟨t, ht, htid, hcomp⟩
  · intro h hmarked
    obtain ⟨_, ⟨subs, hsubs, hall⟩⟩ := check_seedbox_fold torrents (st, [])
    have h2 : (check_seedbox st torrents).2 = [] ++ subs := hsubs
    rw [h2]
    intro hmem
    simp only [List.nil_append, List.mem_map] at hmem
    obtain ⟨s, hs, hstid⟩ := hmem
    obtain ⟨t, _, htid, _, hproc⟩ := hall s hs
    rw [hstid] at htid
    rw [← htid] at hproc
    simp only [is_processed] at hproc
    have : ("sb_" ++ h) ∈ (st, ([] : List Submission)).1.processed := hmarked
    simp [this] at hproc

/-- Witness for `seedbox_completion_spec`: the completion equivalence
evaluated at the repository's own test fixture
`{'name': 'linux.iso', 'hash': 'h1', 'size': 100, 'bytes_done': 100}`. -/
theorem seedbox_completion_spec_witness :
    seedbox_complete ⟨"linux.iso", "h1", 100, 100, none, some "/home/user/linux.iso"⟩ = true ↔
      ((⟨"linux.iso", "h1", 100, 100, none, some "/home/user/linux.iso"⟩ : SBTorrent).state =
        some "seeding" ∨ (0 < (100 : Nat) ∧ (100 : Nat) = 100)) :=
  (seedbox_completion_spec initial_state []).1
    ⟨"linux.iso", "h1", 100, 100, none, some "/home/user/linux.iso"⟩

/-- C7 failing input: after `/rd_torrent_gdrive` records the gdrive intent
for torrent `t1`, the completion monitor still resolves the destination to
the default `"telegram"`, because the intent sits under key `"rd:t1"` while
the monitor reads key `"rd_t1"` (the repository's own
`tests/test_gdrive_commands.py` expects the underscore key the monitor
uses). -/
theorem intent_key_mismatch :
    get_intent (rd_torrent_gdrive_intent initial_state "t1") "rd:t1" = some "gdrive" ∧
    monitor_rd_dest (rd_torrent_gdrive_intent initial_state "t1") "t1" = "telegram" ∧
    get_intent (rd_torrent_gdrive_intent initial_state "t1") "rd_t1" = none := by
  refine ⟨rfl, ?_, rfl⟩
  rfl

/-- C3: backend selection is a deterministic function of its inputs and
matches the claimed truth table — a forced backend is returned
unconditionally; otherwise a private feed's candidate goes to the seedbox;
otherwise the candidate goes to Real-Debrid exactly when the cache check
runs to completion (RD configured, hash extracted, availability call
succeeded) and reports the hash cached, and to the seedbox on a cache miss
or any cache-check error. -/
theorem router_spec (service : Option String) (priv : Bool) (rdConfigured : Bool)
    (torrentHash : Option String) (cache : CacheOutcome) :
    (select_service (some "rd") priv rdConfigured torrentHash cache = "rd") ∧
    (select_service (some "sb") priv rdConfigured torrentHash cache = "sb") ∧
    (service ≠ some "rd" → service ≠ some "sb" → priv = true →
      select_service service priv rdConfigured torrentHash cache = "sb") ∧
    (service ≠ some "rd" → service ≠ some "sb" → priv = false →
      (select_service service priv rdConfigured torrentHash cache = "rd" ↔
        (rdConfigured = true ∧ ∃ h avail, torrentHash = some h ∧
          cache = CacheOutcome.cacheOk avail ∧ dict_get avail h = some true))) ∧
    (select_service service priv rdConfigured torrentHash cache = "rd" ∨
      select_service service priv rdConfigured torrentHash cache = "sb") := by
  refine ⟨by simp [select_service], by simp [select_service], ?_, ?_, ?_⟩
  · intro h1 h2 hpriv
    simp [select_service, h1, h2, hpriv]
  · intro h1 h2 hpriv
    have hor : ¬(service = some "rd" ∨ service = some "sb") := by
      rintro (h | h)
      · exact h1 h
      · exact h2 h
    have hsel : select_service service priv rdConfigured torrentHash cache =
        select_service_by_cache rdConfigured torrentHash cache := by
      simp [select_service, hor, hpriv]
    rw [hsel]
    cases rdConfigured with
    | false =>
      constructor
      · intro habs
        exact absurd habs (by simp [select_service_by_cache])
      · rintro ⟨hrc, -⟩
        exact absurd hrc (by decide)
    | true =>
      cases torrentHash with
      | none =>
        constructor
        · intro habs
          exact absurd habs (by simp [select_service_by_cache])
        · rintro ⟨-, h', avail', hh', -⟩
          exact absurd hh' (by simp)
      | some h =>
        cases cache with
        | cacheErr =>
          constructor
          · intro habs
            exact absurd habs (by simp [select_service_by_cache])
          · rintro ⟨-, h', avail', -, hc', -⟩
            exact absurd hc' (by simp)
        | cacheOk avail =>
          by_cases hc : (!avail.isEmpty && (dict_get avail h).isSome &&
              (dict_get avail h).getD false) = true
          · have hlhs : select_service_by_cache true (some h) (CacheOutcome.cacheOk avail) =
                "rd" := by
              simp [select_service_by_cache, hc]
            rw [hlhs]
            have hl : dict_get avail h = some true := by
              simp only [Bool.and_eq_true] at hc
              obtain ⟨⟨-, hsome⟩, hval⟩ := hc
              obtain ⟨v, hv⟩ := Option.isSome_iff_exists.mp hsome
              rw [hv] at hval ⊢
              simp only [Option.getD_some] at hval
              rw [hval]
            exact iff_of_true rfl ⟨rfl, h, avail, rfl, rfl, hl⟩
          · have hlhs : select_service_by_cache true (some h) (CacheOutcome.cacheOk avail) =
                "sb" := by
              simp [select_service_by_cache, hc]
            rw [hlhs]
            constructor
            · intro habs
              exact absurd habs (by decide)
            · rintro ⟨-, h', avail', hh', hc', hlook⟩
              injection hh' with hh'
              injection hc' with hc'
              subst hh'
              subst hc'
              apply absurd _ hc
              have h1s : (dict_get avail h).isSome = true := by rw [hlook]; rfl
              have h2s : (dict_get avail h).getD false = true := by rw [hlook]; rfl
              have h3s : avail.isEmpty = false := by
                cases avail with
                | nil => simp [dict_get] at hlook
                | cons p rest => rfl
              rw [h3s, h1s, h2s]
              rfl
  · unfold select_service
    by_cases hf : service = some "rd" ∨ service = some "sb"
    · rw [if_pos hf]
      rcases hf with h | h
      · rw [h]
        left
        rfl
      · rw [h]
        right
        rfl
    · rw [if_neg hf]
      by_cases hp : priv = true
      · rw [if_pos hp]
        right
        rfl
      · rw [if_neg hp]
        cases rdConfigured with
        | false =>
          right
          simp [select_service_by_cache]
        | true =>
          cases torrentHash with
          | none =>
            right
            simp [select_service_by_cache]
          | some h =>
            cases cache with
            | cacheErr =>
              right
              simp [select_service_by_cache]
            | cacheOk avail =>
              by_cases hc : (!avail.isEmpty && (dict_get avail h).isSome &&
                  (dict_get avail h).getD false) = true
              · left
                simp [select_service_by_cache, hc]
              · right
                simp [select_service_by_cache, hc]

/-- Witness for `router_spec`: the spec's §8 example rows — forced `sb` with
a cached public torrent still selects `sb`; and with no force, no privacy, a
cached hash selects `rd`. -/
theorem router_spec_witness :
    select_service (some "sb") false true (some "abc") (CacheOutcome.cacheOk [("abc", true)]) =
      "sb" ∧
    ((some "x" : Option String) ≠ some "rd" ∧ (some "x" : Option String) ≠ some "sb") ∧
    (select_service (some "x") false true (some "abc") (CacheOutcome.cacheOk [("abc", true)]) =
        "rd" ↔
      (true = true ∧ ∃ h avail, (some "abc" : Option String) = some h ∧
        CacheOutcome.cacheOk [("abc", true)] = CacheOutcome.cacheOk avail ∧
        dict_get avail h = some true)) :=
  ⟨(router_spec (some "sb") false true (some "abc")
      (CacheOutcome.cacheOk [("abc", true)])).2.1,
   ⟨by decide, by decide⟩,
   (router_spec (some "x") false true (some "abc")
      (CacheOutcome.cacheOk [("abc", true)])).2.2.2.1 (by decide) (by decide) rfl⟩

theorem download_attempt_success (outcomes : Nat → FetchOutcome) (attempt : Nat)
    (h : outcomes attempt = FetchOutcome.success) :
    download_attempt outcomes attempt = FetchResult.ok attempt [] := by
  rw [download_attempt, h]

theorem download_attempt_error (outcomes : Nat → FetchOutcome) (attempt : Nat)
    (e : FetchOutcome) (hout : outcomes attempt = e) (hns : e ≠ FetchOutcome.success) :
    download_attempt outcomes attempt =
      if attempt < max_retries - 1 ∧ retryable_error e = true then
        match download_attempt outcomes (attempt + 1) with
        | FetchResult.ok a ws => FetchResult.ok a (2 ^ attempt :: ws)
        | FetchResult.raised er a ws => FetchResult.raised er a (2 ^ attempt :: ws)
      else FetchResult.raised e attempt [] := by
  rw [download_attempt, hout]
  cases e with
  | success => exact absurd rfl hns
  | httpError s => rfl
  | connError => rfl
  | timeout => rfl

theorem fetch_spec_error_case (outcomes : Nat → FetchOutcome) (attempt : Nat)
    (e : FetchOutcome) (hout : outcomes attempt = e) (hns : e ≠ FetchOutcome.success)
    (hle : attempt ≤ max_retries - 1)
    (ihnext : attempt < max_retries - 1 → retryable_error e = true →
      fetch_spec outcomes (attempt + 1)) :
    fetch_spec outcomes attempt := by
  rw [fetch_spec]
  rw [download_attempt_error outcomes attempt e hout hns]
  by_cases hc : attempt < max_retries - 1 ∧ retryable_error e = true
  · obtain ⟨hspec0, hspec1, hspec2, hspec3, hspec4, hspec5⟩ := ihnext hc.1 hc.2
    rw [if_pos hc]
    cases hr : download_attempt outcomes (attempt + 1) with
    | ok a ws =>
      rw [hr] at hspec0 hspec1 hspec2 hspec3 hspec4 hspec5
      simp only [fetch_final, fetch_waits] at hspec0 hspec1 hspec2 hspec4 hspec5 ⊢
      refine ⟨by omega, hspec1, ?_, ?_, ?_, ?_⟩
      · intro i h1 h2
        rcases Nat.eq_or_lt_of_le h1 with rfl | h1'
        · exact ⟨by rw [hout]; exact hns, by rw [hout]; exact hc.2⟩
        · exact hspec2 i h1' h2
      · intro e' a' ws' habs
        exact absurd habs (by simp)
      · intro a' ws' hok
        injection hok with ha' hws'
        exact ha' ▸ hspec4 a ws rfl
      · rw [hspec5]
        have hn : a - attempt = (a - (attempt + 1)) + 1 := by omega
        rw [hn, List.range'_succ, List.map_cons]
    | raised er a ws =>
      rw [hr] at hspec0 hspec1 hspec2 hspec3 hspec4 hspec5
      simp only [fetch_final, fetch_waits] at hspec0 hspec1 hspec2 hspec5 ⊢
      refine ⟨by omega, hspec1, ?_, ?_, ?_, ?_⟩
      · intro i h1 h2
        rcases Nat.eq_or_lt_of_le h1 with rfl | h1'
        · exact ⟨by rw [hout]; exact hns, by rw [hout]; exact hc.2⟩
        · exact hspec2 i h1' h2
      · intro e' a' ws' hra
        injection hra with he' ha' hws'
        subst he'
        subst ha'
        exact hspec3 er a ws rfl
      · intro a' ws' habs
        exact absurd habs (by simp)
      · rw [hspec5]
        have hn : a - attempt = (a - (attempt + 1)) + 1 := by omega
        rw [hn, List.range'_succ, List.map_cons]
  · rw [if_neg hc]
    simp only [fetch_final, fetch_waits]
    refine ⟨le_rfl, hle, ?_, ?_, ?_, ?_⟩
    · intro i h1 h2
      omega
    · intro e' a' ws' hra
      injection hra with he' ha' hws'
      subst he'
      subst ha'
      refine ⟨hout.symm, ?_⟩
      rcases Nat.eq_or_lt_of_le hle with heq | hlt
      · exact Or.inl heq
      · right
        by_contra hret
        exact hc ⟨hlt, Bool.not_eq_false _ |>.mp hret⟩
    · intro a' ws' habs
      exact absurd habs (by simp)
    · simp

theorem fetch_spec_holds (outcomes : Nat → FetchOutcome) :
    ∀ (k attempt : Nat), max_retries - attempt ≤ k → attempt ≤ max_retries - 1 →
      fetch_spec outcomes attempt := by
  intro k
  induction k with
  | zero =>
    intro attempt hk hle
    exfalso
    unfold max_retries at hk hle
    omega
  | succ m ih =>
    intro attempt hk hle
    cases hout : outcomes attempt with
    | success =>
      rw [fetch_spec, download_attempt_success outcomes attempt hout]
      simp only [fetch_final, fetch_waits]
      refine ⟨le_rfl, hle, ?_, ?_, ?_, by simp⟩
      · intro i h1 h2
        omega
      · intro e a ws habs
        exact absurd habs (by simp)
      · intro a ws hok
        injection hok with ha hws
        rw [← ha]
        exact hout
    | httpError s =>
      refine fetch_spec_error_case outcomes attempt _ hout (by simp) hle ?_
      intro hlt _
      exact ih (attempt + 1) (by omega) (by omega)
    | connError =>
      refine fetch_spec_error_case outcomes attempt _ hout (by simp) hle ?_
      intro hlt _
      exact ih (attempt + 1) (by omega) (by omega)
    | timeout =>
      refine fetch_spec_error_case outcomes attempt _ hout (by simp) hle ?_
      intro hlt _
      exact ih (attempt + 1) (by omega) (by omega)

/-- C8: whatever the per-attempt outcomes, `_download_file` makes at most 5
attempts; it retries only after an error that is a 500/502/503/504/429 HTTP
error, a connection error, or a timeout (all of which are 5xx/429 HTTP
errors, connection errors, or timeouts); it sleeps `2 ^ attempt` seconds
between consecutive attempts; and when it stops on an error — exhaustion of
the 5 attempts or a non-retryable error — that last error is raised. -/
theorem download_retry_spec (outcomes : Nat → FetchOutcome) :
    fetch_final (download_file outcomes) < 5 ∧
    (∀ i, i < fetch_final (download_file outcomes) →
      outcomes i ≠ FetchOutcome.success ∧ retryable_error (outcomes i) = true) ∧
    (∀ i, i < fetch_final (download_file outcomes) →
      outcomes i = FetchOutcome.connError ∨ outcomes i = FetchOutcome.timeout ∨
        ∃ s, outcomes i = FetchOutcome.httpError s ∧ ((500 ≤ s ∧ s ≤ 599) ∨ s = 429)) ∧
    (∀ e a ws, download_file outcomes = FetchResult.raised e a ws →
      e = outcomes a ∧ (a = 4 ∨ retryable_error e = false)) ∧
    (∀ a ws, download_file outcomes = FetchResult.ok a ws →
      outcomes a = FetchOutcome.success) ∧
    fetch_waits (download_file outcomes) =
      (List.range (fetch_final (download_file outcomes))).map (fun i => 2 ^ i) := by
  obtain ⟨h0, h1, h2, h3, h4, h5⟩ :=
    fetch_spec_holds outcomes max_retries 0 (by omega) (by unfold max_retries; omega)
  have hfin : fetch_final (download_file outcomes) ≤ 4 := h1
  refine ⟨by omega, ?_, ?_, h3, h4, ?_⟩
  · intro i hi
    exact h2 i (Nat.zero_le i) hi
  · intro i hi
    obtain ⟨hns, hret⟩ := h2 i (Nat.zero_le i) hi
    cases he : outcomes i with
    | success => exact absurd he hns
    | connError => exact Or.inl rfl
    | timeout => exact Or.inr (Or.inl rfl)
    | httpError s =>
      refine Or.inr (Or.inr ⟨s, rfl, ?_⟩)
      rw [he] at hret
      simp only [retryable_error, outcome_status, List.mem_cons, List.mem_singleton,
        decide_eq_true_eq, List.not_mem_nil, or_false] at hret
      omega
  · show fetch_waits (download_attempt outcomes 0) =
      (List.range (fetch_final (download_attempt outcomes 0))).map (fun i => 2 ^ i)
    rw [h5, List.range_eq_range']
    simp

theorem retry_demo_eval :
    download_file retry_demo_oracle =
      FetchResult.raised (FetchOutcome.httpError 404) 2 [1, 2] := by
  have h2 : download_attempt retry_demo_oracle 2 =
      FetchResult.raised (FetchOutcome.httpError 404) 2 [] := by
    rw [download_attempt_error retry_demo_oracle 2 (FetchOutcome.httpError 404)
      (by decide) (by decide)]
    rw [if_neg (by decide)]
  have h1 : download_attempt retry_demo_oracle 1 =
      FetchResult.raised (FetchOutcome.httpError 404) 2 [2] := by
    rw [download_attempt_error retry_demo_oracle 1 FetchOutcome.timeout
      (by decide) (by decide)]
    rw [if_pos (by decide), h2]
    rfl
  show download_attempt retry_demo_oracle 0 =
    FetchResult.raised (FetchOutcome.httpError 404) 2 [1, 2]
  rw [download_attempt_error retry_demo_oracle 0 (FetchOutcome.httpError 503)
    (by decide) (by decide)]
  rw [if_pos (by decide), h1]
  rfl

/-- Witness for `download_retry_spec`: on `retry_demo_oracle` the loop raises
the non-retryable 404 of attempt 2 (after sleeping 1 s and 2 s), and the
theorem's raised-error conjunct applies to that concrete run. -/
theorem download_retry_spec_witness :
    FetchOutcome.httpError 404 = retry_demo_oracle 2 ∧
    (2 = 4 ∨ retryable_error (FetchOutcome.httpError 404) = false) :=
  (download_retry_spec retry_demo_oracle).2.2.2.1 (FetchOutcome.httpError 404) 2 [1, 2]
    retry_demo_eval

theorem poll_loop_first_poll (digest : String → String) (add_ok : String → Bool)
    (entries : List FeedEntry) :
    ∀ (n : Nat) (seen : List String) (subs : List (String × String)),
      (entries.foldl (poll_entry digest add_ok none) (n, seen, subs)).1 = n ∧
      (entries.foldl (poll_entry digest add_ok none) (n, seen, subs)).2.2 = subs ∧
      (∃ extra, (entries.foldl (poll_entry digest add_ok none) (n, seen, subs)).2.1 =
        seen ++ extra) ∧
      (∀ e ∈ entries, ∀ url, extract_torrent_url e = some url →
        digest (entry_guid e url) ∈
          (entries.foldl (poll_entry digest add_ok none) (n, seen, subs)).2.1) := by
  induction entries with
  | nil =>
    intro n seen subs
    exact ⟨rfl, rfl, ⟨[], by simp⟩, by simp⟩
  | cons e es ih =>
    intro n seen subs
    have hstep : ∃ extra1, poll_entry digest add_ok none (n, seen, subs) e =
        (n, seen ++ extra1, subs) ∧
        (∀ url, extract_torrent_url e = some url →
          digest (entry_guid e url) ∈ seen ++ extra1) := by
      cases hx : extract_torrent_url e with
      | none =>
        refine ⟨[], by simp [poll_entry, hx], ?_⟩
        intro url h
        exact Option.noConfusion h
      | some url =>
        by_cases hseen : seen.contains (digest (entry_guid e url)) = true
        · have hm := List.mem_of_elem_eq_true hseen
          refine ⟨[], by simp [poll_entry, hx, hm], ?_⟩
          intro url' hurl'
          injection hurl' with hss
          subst hss
          exact List.mem_append_left _ hm
        · have hm : digest (entry_guid e url) ∉ seen :=
            fun hmem => hseen (List.elem_eq_true_of_mem hmem)
          refine ⟨[digest (entry_guid e url)], by simp [poll_entry, hx, hm], ?_⟩
          intro url' hurl'
          injection hurl' with hss
          subst hss
          simp
    obtain ⟨extra1, hstep1, hstep2⟩ := hstep
    rw [List.foldl_cons, hstep1]
    obtain ⟨ih1, ih2, ⟨extra2, ihextra⟩, ihmem⟩ := ih n (seen ++ extra1) subs
    refine ⟨ih1, ih2, ⟨extra1 ++ extra2, by rw [ihextra, List.append_assoc]⟩, ?_⟩
    intro e' he' url hurl
    rcases List.mem_cons.mp he' with rfl | hes
    · rw [ihextra]
      exact List.mem_append_left _ (hstep2 url hurl)
    · exact ihmem e' hes url hurl

/-- C9: on the first poll of a feed (`last_check` still unset), no torrent is
submitted to either backend and the poll reports zero new items, while the
hash of every entry that carries a torrent link is in the seen set the loop
produces (which the feed then retains up to the 1000-entry horizon). -/
theorem first_poll_spec (digest : String → String) (add_ok : String → Bool)
    (now : Nat) (f : Feed) (entries : List FeedEntry)
    (hfirst : f.last_check = none) :
    (poll_feed digest add_ok now f entries).1 = 0 ∧
    (poll_feed digest add_ok now f entries).2.2 = [] ∧
    (∀ e ∈ entries, ∀ url, extract_torrent_url e = some url →
      digest (entry_guid e url) ∈
        (poll_feed_loop digest add_ok f.last_check f.seen_guids entries).2.1) := by
  obtain ⟨h1, h2, _, h4⟩ :=
    poll_loop_first_poll digest add_ok entries 0 f.seen_guids []
  rw [hfirst]
  refine ⟨?_, ?_, h4⟩
  · show (poll_feed_loop digest add_ok f.last_check f.seen_guids entries).1 = 0
    rw [hfirst]
    exact h1
  · show (poll_feed_loop digest add_ok f.last_check f.seen_guids entries).2.2 = []
    rw [hfirst]
    exact h2

/-- Witness for `first_poll_spec`: a fresh feed whose first poll sees one
magnet entry — nothing is submitted, zero new items, and the entry's hash
lands in the seen set. -/
theorem first_poll_spec_witness :
    ((⟨"http://feed", none, false, none, [], false⟩ : Feed).last_check = none) ∧
    ((poll_feed id (fun _ => true) 7 ⟨"http://feed", none, false, none, [], false⟩
        [⟨some "g1", some "magnet:?xt=urn:btih:abc", [], [], some "t", none, none⟩]).1 = 0 ∧
     (poll_feed id (fun _ => true) 7 ⟨"http://feed", none, false, none, [], false⟩
        [⟨some "g1", some "magnet:?xt=urn:btih:abc", [], [], some "t", none, none⟩]).2.2 = [] ∧
     (∀ e ∈ [(⟨some "g1", some "magnet:?xt=urn:btih:abc", [], [], some "t", none,
          none⟩ : FeedEntry)],
       ∀ url, extract_torrent_url e = some url →
        id (entry_guid e url) ∈
          (poll_feed_loop id (fun _ => true)
            (⟨"http://feed", none, false, none, [], false⟩ : Feed).last_check
            (⟨"http://feed", none, false, none, [], false⟩ : Feed).seen_guids
            [⟨some "g1", some "magnet:?xt=urn:btih:abc", [], [], some "t", none, none⟩]).2.1)) :=
  ⟨rfl,
   first_poll_spec id (fun _ => true) 7 ⟨"http://feed", none, false, none, [], false⟩
     [⟨some "g1", some "magnet:?xt=urn:btih:abc", [], [], some "t", none, none⟩] rfl⟩

/-- C10: after every completed poll the feed retains at most 1000 seen
GUIDs, and they are exactly the most recently appended suffix of the seen
list the entry loop produced — anything older has been forgotten by this
idempotency layer. -/
theorem seen_guids_horizon (digest : String → String) (add_ok : String → Bool)
    (now : Nat) (f : Feed) (entries : List FeedEntry) :
    (poll_feed digest add_ok now f entries).2.1.seen_guids.length ≤ 1000 ∧
    (poll_feed digest add_ok now f entries).2.1.seen_guids =
      (poll_feed_loop digest add_ok f.last_check f.seen_guids entries).2.1.drop
        ((poll_feed_loop digest add_ok f.last_check f.seen_guids entries).2.1.length - 1000) ∧
    ∃ pre, pre ++ (poll_feed digest add_ok now f entries).2.1.seen_guids =
      (poll_feed_loop digest add_ok f.last_check f.seen_guids entries).2.1 := by
  set s := (poll_feed_loop digest add_ok f.last_check f.seen_guids entries).2.1 with hs
  have hseen : (poll_feed digest add_ok now f entries).2.1.seen_guids =
      if 1000 < s.length then s.drop (s.length - 1000) else s := rfl
  by_cases hlen : 1000 < s.length
  · rw [hseen, if_pos hlen]
    refine ⟨?_, ?_, ⟨s.take (s.length - 1000), List.take_append_drop _ s⟩⟩
    · rw [List.length_drop]
      omega
    · rfl
  · rw [hseen, if_neg hlen]
    refine ⟨by omega, ?_, ⟨[], by simp⟩⟩
    have : s.length - 1000 = 0 := by omega
    rw [this, List.drop_zero]

/-- Witness for `seen_guids_horizon` at a concrete poll (one already-seen
entry, seen list well under the horizon). -/
theorem seen_guids_horizon_witness :
    (poll_feed id (fun _ => true) 7 ⟨"http://feed", none, false, some 3, ["g1"], false⟩
        [⟨some "g1", some "magnet:?xt=urn:btih:abc", [], [], some "t", none, none⟩]).2.1.seen_guids.length
      ≤ 1000 ∧
    ∃ pre, pre ++ (poll_feed id (fun _ => true) 7
        ⟨"http://feed", none, false, some 3, ["g1"], false⟩
        [⟨some "g1", some "magnet:?xt=urn:btih:abc", [], [], some "t", none, none⟩]).2.1.seen_guids =
      (poll_feed_loop id (fun _ => true)
        (⟨"http://feed", none, false, some 3, ["g1"], false⟩ : Feed).last_check
        (⟨"http://feed", none, false, some 3, ["g1"], false⟩ : Feed).seen_guids
        [⟨some "g1", some "magnet:?xt=urn:btih:abc", [], [], some "t", none, none⟩]).2.1 :=
  ⟨(seen_guids_horizon id (fun _ => true) 7 ⟨"http://feed", none, false, some 3, ["g1"], false⟩
      [⟨some "g1", some "magnet:?xt=urn:btih:abc", [], [], some "t", none, none⟩]).1,
   (seen_guids_horizon id (fun _ => true) 7 ⟨"http://feed", none, false, some 3, ["g1"], false⟩
      [⟨some "g1", some "magnet:?xt=urn:btih:abc", [], [], some "t", none, none⟩]).2.2⟩

/-- C1 failing input: the ledger already records hash `h1` as delivered to
`telegram`, yet `_run_task` delivers the file again (its path appears in the
performed uploads) and leaves the ledger untouched — `is_uploaded` is also
still `false` for the other sink, showing the evaluated ledger semantics,
but no upload-stage code ever consults or updates it. -/
theorem upload_ledger_not_consulted :
    is_uploaded (mark_uploaded initial_state "h1" "telegram") "h1" "telegram" = true ∧
    is_uploaded (mark_uploaded initial_state "h1" "telegram") "h1" "gdrive" = false ∧
    run_task_uploads (mark_uploaded initial_state "h1" "telegram")
        [⟨"f.bin", "downloads/f.bin", false, none, false⟩] =
      (["downloads/f.bin"], mark_uploaded initial_state "h1" "telegram") := by
  refine ⟨by decide, by decide, ?_⟩
  rfl

end SeedboxBot
